import Mathlib

/-!
Verification of the tg_job_RAG matching pipeline against its specification.

The Python sources under `src/` are shallowly embedded as Lean functions:

* `src/src/ingestion.py` — `get_embedding`, `get_embeddings_batch` (retry loop
  over provider attempts), `ingest_jobs_batch` (validation, 30-sized chunking,
  Firestore batch commit with 3-attempt contention retry).
* `src/src/query.py` — `get_top_matches` (resume embedding, scoped Firestore
  vector query, per-result reasoning), `generate_reasoning`,
  `delete_session_vacancies` (scoped delete in 500-sized commit batches).

External collaborators (the Vertex AI embedding/LLM providers and the Firestore
vector store) are modelled as explicit function parameters; Firestore's
`find_nearest` is modelled per its documented contract (filter to the scope,
order by ascending distance, take `k`, attach the distance field), which is the
contract §4.3 of the specification also states.  Provider calls are recorded in
explicit traces so that claims about which calls are made can be settled.
-/

namespace JobRAG

/-! ### Error classification (ingestion.py, retry loops)

The source classifies a retryable provider error by substring match:
`"429" in str(e) or "Quota exceeded" in str(e)`. -/

/-- `isPre pat l` is true iff `pat` is a prefix of `l`. -/
def isPre : List Char → List Char → Bool
  | [], _ => true
  | _ :: _, [] => false
  | a :: as, b :: bs => a == b && isPre as bs

/-- `subOccurs pat l` is true iff `pat` occurs contiguously in `l`
(models Python `pat in s` on the character sequences). -/
def subOccurs (pat : List Char) : List Char → Bool
  | [] => isPre pat []
  | b :: bs => isPre pat (b :: bs) || subOccurs pat bs

/-- `containsSub s pat` models Python `pat in s`. -/
def containsSub (s pat : String) : Bool := subOccurs pat.data s.data

/-- Retryable-error test from `ingestion.py`: `"429" in str(e) or "Quota exceeded" in str(e)`. -/
def isRateLimitError (msg : String) : Bool :=
  containsSub msg "429" || containsSub msg "Quota exceeded"

/-- The whitespace set of Python `str.strip()`. -/
def isPyWs (c : Char) : Bool :=
  c == ' ' || c == '\t' || c == '\n' || c == '\r' || c == '\x0b' || c == '\x0c'

/-- Python `s.strip()`, as a character sequence: drop leading and trailing
whitespace. -/
def pyStrip (s : String) : List Char :=
  ((s.data.dropWhile isPyWs).reverse.dropWhile isPyWs).reverse

/-- A provider exception, carrying the message the source string-matches on. -/
structure ProviderErr where
  msg : String
  deriving DecidableEq

/-! ### `get_embedding` (ingestion.py lines 30–43) -/

/-- Outcome of one call `embedding_model.get_embeddings([text])` (the source
reads `embeddings[0].values` on success). -/
inductive EmbOutcome where
  | ok (v : List ℚ)
  | err (e : ProviderErr)
  deriving DecidableEq

/-- Final result of `get_embedding`: the returned vector, an immediately
re-raised provider error, or the distinct `Max retries exceeded` error. -/
inductive EmbFinal where
  | success (v : List ℚ)
  | raised (msg : String)
  | exhausted
  deriving DecidableEq

/-- One run of `get_embedding`: its result, the sequence of backoff waits
(`(2 ** attempt) * 2` seconds), and the number of provider calls made. -/
structure EmbedRun where
  result : EmbFinal
  waits : List Nat
  calls : Nat
  deriving DecidableEq

/-- The `for attempt in range(max_retries)` loop of `get_embedding`.
`provider n` is the outcome of the `n`-th provider call; `fuel` is the number
of attempts left. Falling out of the loop raises the exhausted error. -/
def getEmbeddingGo (provider : Nat → EmbOutcome) :
    Nat → Nat → List Nat → EmbedRun
  | attempt, 0, waits => ⟨.exhausted, waits, attempt⟩
  | attempt, fuel + 1, waits =>
    match provider attempt with
    | .ok v => ⟨.success v, waits, attempt + 1⟩
    | .err e =>
      if isRateLimitError e.msg then
        getEmbeddingGo provider (attempt + 1) fuel (waits ++ [2 ^ attempt * 2])
      else ⟨.raised e.msg, waits, attempt + 1⟩

/-- `IngestionSubsystem.get_embedding(text, max_retries)` — retry behaviour. -/
def get_embedding (provider : Nat → EmbOutcome) (max_retries : Nat) : EmbedRun :=
  getEmbeddingGo provider 0 max_retries []

/-! ### `get_embeddings_batch` (ingestion.py lines 45–58)

The source passes the whole `texts` list to the provider in a single call
(`self.embedding_model.get_embeddings(texts)`); there is no chunking.  The
model records every provider call's argument list in `calls`. -/

/-- Outcome of one call `embedding_model.get_embeddings(texts)`. -/
inductive BatchOutcome where
  | ok (embs : List (List ℚ))
  | err (e : ProviderErr)
  deriving DecidableEq

/-- Final result of `get_embeddings_batch`: the list `[emb.values for emb in
embeddings]`, an immediately re-raised provider error, or the distinct
`Max retries exceeded for batch embedding generation` error. -/
inductive BatchFinal where
  | success (embs : List (List ℚ))
  | raised (msg : String)
  | exhausted
  deriving DecidableEq

/-- One run of `get_embeddings_batch`: result, backoff waits, and the argument
list of every provider call made. -/
structure BatchRun where
  result : BatchFinal
  waits : List Nat
  calls : List (List String)
  deriving DecidableEq

/-- The `for attempt in range(max_retries)` loop of `get_embeddings_batch`.
Every provider call receives the entire `texts` list. -/
def getEmbeddingsBatchGo (provider : Nat → List String → BatchOutcome)
    (texts : List String) :
    Nat → Nat → List Nat → List (List String) → BatchRun
  | _attempt, 0, waits, calls => ⟨.exhausted, waits, calls⟩
  | attempt, fuel + 1, waits, calls =>
    match provider attempt texts with
    | .ok embs => ⟨.success embs, waits, calls ++ [texts]⟩
    | .err e =>
      if isRateLimitError e.msg then
        getEmbeddingsBatchGo provider texts (attempt + 1) fuel
          (waits ++ [2 ^ attempt * 2]) (calls ++ [texts])
      else ⟨.raised e.msg, waits, calls ++ [texts]⟩

/-- `IngestionSubsystem.get_embeddings_batch(texts, max_retries)`. -/
def get_embeddings_batch (provider : Nat → List String → BatchOutcome)
    (texts : List String) (max_retries : Nat) : BatchRun :=
  getEmbeddingsBatchGo provider texts 0 max_retries [] []

/-! ### `ingest_jobs_batch` (ingestion.py lines 83–129) -/

/-- An incoming job record: `job_id` (already stringified), the optional
`description`, and the optional `date`. -/
structure Job where
  job_id : String
  description : Option String
  date : Option String
  deriving DecidableEq

/-- A persisted vacancy document in the `vacancies` collection. -/
structure VacancyRecord where
  job_id : String
  description : String
  embedding : List ℚ
  session_id : String
  deriving DecidableEq

/-- Validation from the source:
`if job.get("description") and len(job["description"].strip()) > 0`. -/
def validJob (j : Job) : Bool :=
  match j.description with
  | none => false
  | some d => d != "" && (pyStrip d).length > 0

/-- `job["description"]`, reading the optional field. -/
def descOf (j : Job) : String :=
  match j.description with
  | none => ""
  | some d => d

/-- A `{job_id, embedding_dim}` confirmation entry of `all_results`. -/
structure Confirm where
  job_id : String
  embedding_dim : Nat
  deriving DecidableEq

/-- Firestore `doc_ref.set` at document id `job_id`: replaces any existing
document with that id. -/
def upsert (store : List VacancyRecord) (r : VacancyRecord) : List VacancyRecord :=
  store.filter (fun x => x.job_id != r.job_id) ++ [r]

/-- Committing one Firestore write batch: all its `set` operations applied. -/
def commitChunk (store : List VacancyRecord) (recs : List VacancyRecord) :
    List VacancyRecord :=
  recs.foldl upsert store

/-- Outcome of one `firestore_batch.commit()` attempt. -/
inductive CommitOutcome where
  | ok
  | contention
  | fatal (msg : String)
  deriving DecidableEq

/-- The `for attempt in range(3)` commit-retry loop of `ingest_jobs_batch`.
On every attempt the source rebuilds the write batch and appends the chunk's
confirmations to `all_results` before committing; commit then succeeds,
retries on a contention signal while `attempt < 2`, or raises. -/
def commitLoop (commitB : Nat → CommitOutcome) (confs : List Confirm)
    (committed : List VacancyRecord) :
    Nat → Nat → List Confirm → Except String (List VacancyRecord × List Confirm)
  | _attempt, 0, _acc => .error "commit loop: out of fuel"
  | attempt, fuel + 1, acc =>
    let acc2 := acc ++ confs
    match commitB attempt with
    | .ok => .ok (committed, acc2)
    | .contention =>
      if attempt < 2 then commitLoop commitB confs committed (attempt + 1) fuel acc2
      else .error "409 contention: retries exhausted"
    | .fatal m => .error m

/-- One run of `ingest_jobs_batch`: the final `vacancies` store, the returned
confirmations (or the raised error), and the argument list of every
`get_embeddings_batch` call made. -/
structure IngestRun where
  store : List VacancyRecord
  result : Except String (List Confirm)
  embedCalls : List (List String)

/-- The per-chunk loop of `ingest_jobs_batch`: one batched embedding call for
the chunk's descriptions, then the commit-retry loop. `commitB ci a` is the
outcome of attempt `a` of the commit of chunk `ci`. An exception aborts the
whole pipeline; already-committed chunks remain in the store. -/
def ingestGo (embedder : String → List ℚ) (commitB : Nat → Nat → CommitOutcome)
    (sid : String) :
    List (List Job) → Nat → List VacancyRecord → List Confirm →
      List (List String) → IngestRun
  | [], _ci, store, acc, ecalls => ⟨store, .ok acc, ecalls⟩
  | chunk :: rest, ci, store, acc, ecalls =>
    let descriptions := chunk.map descOf
    let embs := descriptions.map embedder
    let recs := List.zipWith
      (fun j e => (⟨j.job_id, descOf j, e, sid⟩ : VacancyRecord)) chunk embs
    let confs := List.zipWith
      (fun j (e : List ℚ) => (⟨j.job_id, e.length⟩ : Confirm)) chunk embs
    match commitLoop (commitB ci) confs (commitChunk store recs) 0 3 acc with
    | .ok (store2, acc2) =>
      ingestGo embedder commitB sid rest (ci + 1) store2 acc2 (ecalls ++ [descriptions])
    | .error e => ⟨store, .error e, ecalls ++ [descriptions]⟩

/-- The persisted form of one valid job: the fields `ingest_jobs_batch` writes
to the `vacancies` document, with `session_id` set to the caller's tag. -/
def toRecord (embedder : String → List ℚ) (sid : String) (j : Job) : VacancyRecord :=
  ⟨j.job_id, descOf j, embedder (descOf j), sid⟩

/-- The confirmation entry `ingest_jobs_batch` appends for one job. -/
def confOf (embedder : String → List ℚ) (j : Job) : Confirm :=
  ⟨j.job_id, (embedder (descOf j)).length⟩

/-- `valid_jobs[i:i+n]` slicing: successive chunks of size `n`, with the list
length as structural fuel. -/
def chunkListAux (n : Nat) : Nat → List α → List (List α)
  | _, [] => []
  | 0, _ :: _ => []
  | fuel + 1, a :: l => ((a :: l).take n) :: chunkListAux n fuel ((a :: l).drop n)

/-- `for i in range(0, total_jobs, n): valid_jobs[i:i+n]`. -/
def chunkList (n : Nat) (l : List α) : List (List α) :=
  chunkListAux n l.length l

/-- `IngestionSubsystem.ingest_jobs_batch(jobs_data, session_id)` with
`BATCH_SIZE = 30`, starting from store state `store0`. -/
def ingest_jobs_batch (embedder : String → List ℚ)
    (commitB : Nat → Nat → CommitOutcome) (jobs_data : List Job)
    (session_id : String) (store0 : List VacancyRecord) : IngestRun :=
  let valid_jobs := jobs_data.filter validJob
  ingestGo embedder commitB session_id (chunkList 30 valid_jobs) 0 store0 [] []

/-! ### `get_top_matches` (query.py lines 19–58)

Firestore's `find_nearest` (external store) is modelled per its documented
contract, which §4.3 of the specification restates: restrict to the documents
matching the chained equality filter, order by ascending distance under the
requested measure, return at most `limit` documents with the computed distance
attached in `distance_result_field`. The distance measure itself is an opaque
parameter `dist`. -/

/-- A document streamed back from the vector query (`doc.to_dict()` plus the
`vector_distance` result field), later mutated with a `reasoning` entry. -/
structure MatchJob where
  job_id : String
  description : String
  embedding : List ℚ
  session_id : String
  vector_distance : ℚ
  reasoning : String
  deriving DecidableEq

/-- The streamed form of a stored record for query vector `qv`. -/
def docOf (dist : List ℚ → List ℚ → ℚ) (qv : List ℚ) (r : VacancyRecord) : MatchJob :=
  ⟨r.job_id, r.description, r.embedding, r.session_id, dist qv r.embedding, ""⟩

/-- Ascending order on the attached distance field. -/
def distLE (a b : MatchJob) : Prop := a.vector_distance ≤ b.vector_distance

instance : DecidableRel distLE := fun a b =>
  inferInstanceAs (Decidable (a.vector_distance ≤ b.vector_distance))

instance : IsTotal MatchJob distLE := ⟨fun a b => le_total a.vector_distance b.vector_distance⟩

instance : IsTrans MatchJob distLE := ⟨fun _ _ _ hab hbc => le_trans hab hbc⟩

/-- The documents the chained query ranges over: all of `vacancies`, or only
those with the session equality filter when one was chained. -/
def poolOf (store : List VacancyRecord) : Option String → List VacancyRecord
  | none => store
  | some s => store.filter (fun r => r.session_id == s)

/-- Firestore `query.find_nearest(...).stream()`: the scoped documents in
ascending-distance order, at most `k` of them, each carrying its
`vector_distance`. -/
def find_nearest (dist : List ℚ → List ℚ → ℚ) (store : List VacancyRecord)
    (scope : Option String) (qv : List ℚ) (k : Nat) : List MatchJob :=
  (List.insertionSort distLE ((poolOf store scope).map (docOf dist qv))).take k

/-- The scope actually chained by `get_top_matches`: a filter only when
`if session_id:` is truthy (not `None`, not the empty string). -/
def scopeOf : Option String → Option String
  | none => none
  | some s => if s != "" then some s else none

/-- `QuerySubsystem.generate_reasoning`: default prompt when none supplied,
both texts truncated to their first 3000 characters, one LLM call. -/
def generate_reasoning (llm : String → String) (resume_text job_description : String)
    (custom_prompt : Option String) : String :=
  let p :=
    match custom_prompt with
    | none => "List skills which candidate might lack for this job (if any). And list matching skills."
    | some s => s
  llm (p ++ "\nResume:\n" ++ resume_text.take 3000 ++ "\n\nJob Description:\n"
    ++ job_description.take 3000 ++ "\n\n")

/-- One run of `get_top_matches`: the returned list, the texts passed to the
embedding provider, and the `(resume_text, job_description)` argument pairs of
the reasoning calls made. -/
structure QueryRun where
  result : List MatchJob
  embedCalls : List String
  reasoningCalls : List (String × String)

/-- `QuerySubsystem.get_top_matches(resume_text, session_id, top_k, prompt)`:
embed the resume (unconditionally — the source validates nothing), run the
optionally scoped vector query, then attach `job["reasoning"]` to each
returned document in place, preserving the streamed order. -/
def get_top_matches (embedModel : String → List ℚ) (llm : String → String)
    (dist : List ℚ → List ℚ → ℚ) (store : List VacancyRecord)
    (resume_text : String) (session_id : Option String) (top_k : Nat)
    (prompt : Option String) : QueryRun :=
  let resume_embedding := embedModel resume_text
  let top_jobs := find_nearest dist store (scopeOf session_id) resume_embedding top_k
  let final := top_jobs.map
    (fun j => { j with reasoning := generate_reasoning llm resume_text j.description prompt })
  ⟨final, [resume_text], top_jobs.map (fun j => (resume_text, j.description))⟩

/-! ### `delete_session_vacancies` (query.py lines 76–96) -/

/-- One run of `delete_session_vacancies`: the resulting store, the sizes of
the delete batches committed, whether the `vacancies` collection was queried
at all, and the function's return value (the Python function returns `None`,
modelled as an always-`none` optional count). -/
structure DeleteRun where
  store : List VacancyRecord
  commitSizes : List Nat
  queried : Bool
  ret : Option Nat
  deriving DecidableEq

/-- The delete loop: one `batch.delete` per matching document, committing and
resetting whenever the running count reaches 500, with a final commit when a
partial batch remains. Returns the committed batch sizes. -/
def deleteLoop : List VacancyRecord → Nat → List Nat → List Nat
  | [], cnt, commits => if 0 < cnt then commits ++ [cnt] else commits
  | _ :: ds, cnt, commits =>
    if 500 ≤ cnt + 1 then deleteLoop ds 0 (commits ++ [cnt + 1])
    else deleteLoop ds (cnt + 1) commits

/-- `QuerySubsystem.delete_session_vacancies(session_id)` on store `store`:
returns immediately when `if not session_id:` (i.e. `None` or `""`), else
streams the session's documents and deletes them in 500-capped batches. -/
def delete_session_vacancies (store : List VacancyRecord)
    (session_id : Option String) : DeleteRun :=
  match session_id with
  | none => ⟨store, [], false, none⟩
  | some s =>
    if s == "" then ⟨store, [], false, none⟩
    else
      let matching := store.filter (fun r => r.session_id == s)
      ⟨store.filter (fun r => !(r.session_id == s)), deleteLoop matching 0 [],
        true, none⟩

/-! ### Helper lemmas -/

theorem zipWith_map_self (f : α → β → γ) (g : α → β) :
    ∀ l : List α, List.zipWith f l (l.map g) = l.map fun a => f a (g a)
  | [] => rfl
  | a :: l => by simp [zipWith_map_self f g l]

theorem commitChunk_append (store : List VacancyRecord)
    (a b : List VacancyRecord) :
    commitChunk store (a ++ b) = commitChunk (commitChunk store a) b :=
  List.foldl_append ..

theorem mem_upsert {x r : VacancyRecord} {store : List VacancyRecord}
    (h : x ∈ upsert store r) : x ∈ store ∨ x = r := by
  rcases List.mem_append.1 h with h2 | h2
  · exact Or.inl (List.mem_of_mem_filter h2)
  · exact Or.inr (List.mem_singleton.1 h2)

theorem mem_commitChunk {x : VacancyRecord} :
    ∀ {recs store : List VacancyRecord}, x ∈ commitChunk store recs →
      x ∈ store ∨ x ∈ recs := by
  intro recs
  induction recs with
  | nil => exact fun h => Or.inl h
  | cons r rest ih =>
    intro store h
    rcases ih h with h2 | h2
    · rcases mem_upsert h2 with h3 | h3
      · exact Or.inl h3
      · exact Or.inr (h3 ▸ List.mem_cons_self r rest)
    · exact Or.inr (List.mem_cons_of_mem r h2)

theorem commitChunk_of_fresh :
    ∀ (recs store : List VacancyRecord),
      (∀ r ∈ recs, ∀ x ∈ store, x.job_id ≠ r.job_id) →
      (recs.map VacancyRecord.job_id).Nodup →
      commitChunk store recs = store ++ recs := by
  intro recs
  induction recs with
  | nil => intro store _ _; simp [commitChunk]
  | cons r rest ih =>
    intro store hfresh hnd
    have hup : upsert store r = store ++ [r] := by
      unfold upsert
      rw [List.filter_eq_self.2]
      intro x hx
      exact bne_iff_ne.2 (hfresh r (List.mem_cons_self r rest) x hx)
    have hnd2 : (rest.map VacancyRecord.job_id).Nodup := (List.nodup_cons.1 hnd).2
    have hhd : r.job_id ∉ rest.map VacancyRecord.job_id := (List.nodup_cons.1 hnd).1
    have hstep : commitChunk (store ++ [r]) rest = (store ++ [r]) ++ rest := by
      refine ih (store ++ [r]) ?_ hnd2
      intro r2 hr2 x hx
      rcases List.mem_append.1 hx with hx2 | hx2
      · exact hfresh r2 (List.mem_cons_of_mem r hr2) x hx2
      · have : x = r := List.mem_singleton.1 hx2
        subst this
        intro hcontra
        exact hhd (hcontra ▸ List.mem_map_of_mem VacancyRecord.job_id hr2)
    calc commitChunk store (r :: rest)
        = commitChunk (upsert store r) rest := rfl
      _ = commitChunk (store ++ [r]) rest := by rw [hup]
      _ = (store ++ [r]) ++ rest := hstep
      _ = store ++ (r :: rest) := by simp

theorem commitLoop_ok_store (cb : Nat → CommitOutcome) (confs : List Confirm)
    (committed : List VacancyRecord) :
    ∀ fuel attempt acc s acc2,
      commitLoop cb confs committed attempt fuel acc = .ok (s, acc2) →
      s = committed := by
  intro fuel
  induction fuel with
  | zero => intro attempt acc s acc2 h; simp [commitLoop] at h
  | succ fuel ih =>
    intro attempt acc s acc2 h
    simp only [commitLoop] at h
    cases hcb : cb attempt with
    | ok => rw [hcb] at h; injection h with h2; injection h2 with h3 _; exact h3.symm
    | contention =>
      rw [hcb] at h
      by_cases hlt : attempt < 2
      · rw [if_pos hlt] at h; exact ih (attempt + 1) _ s acc2 h
      · rw [if_neg hlt] at h; exact absurd h (by simp)
    | fatal m => rw [hcb] at h; exact absurd h (by simp)

theorem commitLoop_first_ok (cb : Nat → CommitOutcome) (confs : List Confirm)
    (committed : List VacancyRecord) (acc : List Confirm) (h : cb 0 = .ok) :
    commitLoop cb confs committed 0 3 acc = .ok (committed, acc ++ confs) := by
  simp [commitLoop, h]

theorem ingestGo_all_ok (embedder : String → List ℚ)
    (commitB : Nat → Nat → CommitOutcome) (sid : String)
    (hok : ∀ ci, commitB ci 0 = .ok) :
    ∀ (CL : List (List Job)) (ci : Nat) (store : List VacancyRecord)
      (acc : List Confirm) (ecalls : List (List String)),
      ingestGo embedder commitB sid CL ci store acc ecalls =
        ⟨commitChunk store (CL.flatten.map (toRecord embedder sid)),
         .ok (acc ++ CL.flatten.map (confOf embedder)),
         ecalls ++ CL.map fun c => c.map descOf⟩ := by
  intro CL
  induction CL with
  | nil => intro ci store acc ecalls; simp [ingestGo, commitChunk]
  | cons chunk rest ih =>
    intro ci store acc ecalls
    have hrecs : List.zipWith
        (fun j e => (⟨j.job_id, descOf j, e, sid⟩ : VacancyRecord)) chunk
        ((chunk.map descOf).map embedder) = chunk.map (toRecord embedder sid) := by
      rw [List.map_map]
      exact zipWith_map_self _ _ chunk
    have hconfs : List.zipWith
        (fun j (e : List ℚ) => (⟨j.job_id, e.length⟩ : Confirm)) chunk
        ((chunk.map descOf).map embedder) = chunk.map (confOf embedder) := by
      rw [List.map_map]
      exact zipWith_map_self _ _ chunk
    simp only [ingestGo, hrecs, hconfs,
      commitLoop_first_ok (commitB ci) _ _ acc (hok ci)]
    rw [ih (ci + 1) _ _ _]
    simp [commitChunk_append, List.append_assoc]

theorem ingestGo_store_sub (embedder : String → List ℚ)
    (commitB : Nat → Nat → CommitOutcome) (sid : String) :
    ∀ (CL : List (List Job)) (ci : Nat) (store : List VacancyRecord)
      (acc : List Confirm) (ecalls : List (List String))
      (r : VacancyRecord),
      r ∈ (ingestGo embedder commitB sid CL ci store acc ecalls).store →
      r ∈ store ∨ ∃ chunk, chunk ∈ CL ∧ ∃ j, j ∈ chunk ∧ r = toRecord embedder sid j := by
  intro CL
  induction CL with
  | nil => intro ci store acc ecalls r h; exact Or.inl h
  | cons chunk rest ih =>
    intro ci store acc ecalls r h
    have hrecs : List.zipWith
        (fun j e => (⟨j.job_id, descOf j, e, sid⟩ : VacancyRecord)) chunk
        ((chunk.map descOf).map embedder) = chunk.map (toRecord embedder sid) := by
      rw [List.map_map]
      exact zipWith_map_self _ _ chunk
    simp only [ingestGo, hrecs] at h
    rcases hcl : commitLoop (commitB ci)
        (List.zipWith (fun j (e : List ℚ) => (⟨j.job_id, e.length⟩ : Confirm)) chunk
          ((chunk.map descOf).map embedder))
        (commitChunk store (chunk.map (toRecord embedder sid))) 0 3 acc with e | p
    · rw [hcl] at h
      exact Or.inl h
    · rw [hcl] at h
      obtain ⟨store2, acc2⟩ := p
      have hst : store2 = commitChunk store (chunk.map (toRecord embedder sid)) :=
        commitLoop_ok_store _ _ _ 3 0 acc store2 acc2 hcl
      rcases ih (ci + 1) store2 acc2 _ r h with h2 | ⟨c2, hc2, j2, hj2, hr2⟩
      · rw [hst] at h2
        rcases mem_commitChunk h2 with h3 | h3
        · exact Or.inl h3
        · obtain ⟨j, hj, hje⟩ := List.mem_map.1 h3
          exact Or.inr ⟨chunk, List.mem_cons_self chunk rest, j, hj, hje.symm⟩
      · exact Or.inr ⟨c2, List.mem_cons_of_mem chunk hc2, j2, hj2, hr2⟩

theorem chunkListAux_join (n : Nat) (hn : 0 < n) :
    ∀ (fuel : Nat) (l : List α), l.length ≤ fuel →
      (chunkListAux n fuel l).flatten = l := by
  intro fuel
  induction fuel with
  | zero =>
    intro l hl
    have : l = [] := List.length_eq_zero.1 (Nat.le_zero.1 hl)
    subst this
    rfl
  | succ fuel ih =>
    intro l hl
    cases l with
    | nil => rfl
    | cons a l2 =>
      have hdrop : ((a :: l2).drop n).length ≤ fuel := by
        rw [List.length_drop]
        have h1 : (a :: l2).length ≤ fuel + 1 := hl
        omega
      simp only [chunkListAux, List.flatten]
      rw [ih _ hdrop, List.take_append_drop]

theorem chunkList_join (n : Nat) (hn : 0 < n) (l : List α) :
    (chunkList n l).flatten = l :=
  chunkListAux_join n hn l.length l (Nat.le_refl _)

theorem deleteLoop_bound :
    ∀ (ds : List VacancyRecord) (cnt : Nat) (commits : List Nat),
      cnt < 500 → (∀ c ∈ commits, 0 < c ∧ c ≤ 500) →
      ∀ c ∈ deleteLoop ds cnt commits, 0 < c ∧ c ≤ 500 := by
  intro ds
  induction ds with
  | nil =>
    intro cnt commits hcnt hcom c hc
    simp only [deleteLoop] at hc
    by_cases h0 : 0 < cnt
    · rw [if_pos h0] at hc
      rcases List.mem_append.1 hc with h2 | h2
      · exact hcom c h2
      · have : c = cnt := List.mem_singleton.1 h2
        omega
    · rw [if_neg h0] at hc
      exact hcom c hc
  | cons d rest ih =>
    intro cnt commits hcnt hcom c hc
    simp only [deleteLoop] at hc
    by_cases h5 : 500 ≤ cnt + 1
    · rw [if_pos h5] at hc
      refine ih 0 (commits ++ [cnt + 1]) (by omega) ?_ c hc
      intro c2 hc2
      rcases List.mem_append.1 hc2 with h2 | h2
      · exact hcom c2 h2
      · have : c2 = cnt + 1 := List.mem_singleton.1 h2
        omega
    · rw [if_neg h5] at hc
      exact ih (cnt + 1) commits (by omega) hcom c hc

theorem deleteLoop_sum :
    ∀ (ds : List VacancyRecord) (cnt : Nat) (commits : List Nat),
      (deleteLoop ds cnt commits).sum = commits.sum + cnt + ds.length := by
  intro ds
  induction ds with
  | nil =>
    intro cnt commits
    simp only [deleteLoop]
    by_cases h0 : 0 < cnt
    · rw [if_pos h0]; simp
    · rw [if_neg h0]
      have hc : cnt = 0 := by omega
      subst hc
      simp
  | cons d rest ih =>
    intro cnt commits
    simp only [deleteLoop]
    by_cases h5 : 500 ≤ cnt + 1
    · rw [if_pos h5, ih 0 (commits ++ [cnt + 1])]
      simp; omega
    · rw [if_neg h5, ih (cnt + 1) commits]
      simp; omega

theorem batch_first_ok (provider : Nat → List String → BatchOutcome)
    (texts : List String) (embs : List (List ℚ))
    (h : provider 0 texts = .ok embs) :
    get_embeddings_batch provider texts 5 = ⟨.success embs, [], [texts]⟩ := by
  simp [get_embeddings_batch, getEmbeddingsBatchGo, h]

theorem pyStrip_eq_nil_iff (s : String) :
    pyStrip s = [] ↔ s.data.all isPyWs = true := by
  unfold pyStrip
  rw [List.reverse_eq_nil_iff, List.dropWhile_eq_nil_iff, List.all_eq_true]
  constructor
  · intro h x hx
    have hsplit : x ∈ s.data.takeWhile isPyWs ++ s.data.dropWhile isPyWs := by
      rw [List.takeWhile_append_dropWhile]
      exact hx
    rcases List.mem_append.1 hsplit with h1 | h1
    · exact List.mem_takeWhile_imp h1
    · exact h x (List.mem_reverse.2 h1)
  · intro h x hx
    exact h x ((List.dropWhile_sublist isPyWs).subset (List.mem_reverse.1 hx))

theorem not_validJob_eq (j : Job) :
    (!(validJob j)) = (j.description.getD "").data.all isPyWs := by
  cases hd : j.description with
  | none =>
    simp only [validJob, hd, Option.getD]
    rfl
  | some d =>
    simp only [validJob, hd, Option.getD]
    by_cases hd0 : d = ""
    · subst hd0
      decide
    · rw [bne_iff_ne.2 hd0, Bool.true_and]
      cases hall : d.data.all isPyWs with
      | false =>
        have hne : pyStrip d ≠ [] := by
          intro hc
          rw [(pyStrip_eq_nil_iff d).1 hc] at hall
          exact Bool.noConfusion hall
        have hpos : 0 < (pyStrip d).length := List.length_pos.2 hne
        simp [hpos]
      | true =>
        have hnil : pyStrip d = [] := (pyStrip_eq_nil_iff d).2 hall
        simp [hnil]

/-! ### Claims -/

/-- Claim C1, counterexample. The claim states that `get_embeddings_batch`
splits its input into chunks of at most 250 texts before calling the provider.
It does not: on an input of 251 texts the (single) provider call receives all
251 texts, so not every provider call respects the 250 cap. -/
theorem C1_counterexample :
    ¬ (∀ c ∈ (get_embeddings_batch
        (fun _ ts => .ok (ts.map fun _ => [(1 : ℚ)]))
        (List.replicate 251 "x") 5).calls, c.length ≤ 250) := by
  intro hall
  have hrun := batch_first_ok (fun _ ts => .ok (ts.map fun _ => [(1 : ℚ)]))
    (List.replicate 251 "x") ((List.replicate 251 "x").map fun _ => [(1 : ℚ)]) rfl
  have hmem : List.replicate 251 "x" ∈ (get_embeddings_batch
      (fun _ ts => .ok (ts.map fun _ => [(1 : ℚ)]))
      (List.replicate 251 "x") 5).calls := by
    rw [hrun]
    exact List.mem_singleton.2 rfl
  have hle := hall _ hmem
  rw [List.length_replicate] at hle
  omega

/-- Claim C1, amended: `get_embeddings_batch` performs no chunking — it
forwards the entire input list to the provider in a single call (the call
trace is exactly `[texts]`); given the provider's per-element contract (one
embedding per input text, in order), the output is the input list mapped
through the model, so output length equals input length and output order
matches input order. Keeping each call within the 250 cap is the caller's
responsibility (`ingest_jobs_batch` chunks at 30). -/
theorem C1_amended (provider : Nat → List String → BatchOutcome)
    (embedModel : String → List ℚ) (texts : List String)
    (h : provider 0 texts = .ok (texts.map embedModel)) :
    get_embeddings_batch provider texts 5 =
      ⟨.success (texts.map embedModel), [], [texts]⟩
    ∧ (texts.map embedModel).length = texts.length :=
  ⟨batch_first_ok provider texts (texts.map embedModel) h, List.length_map _ _⟩

/-- Witness for C1_amended at a concrete provider and three texts. -/
theorem C1_amended_witness :
    get_embeddings_batch (fun _ ts => .ok (ts.map fun t => [(t.length : ℚ)]))
        ["a", "bb", "ccc"] 5 =
      ⟨.success (["a", "bb", "ccc"].map fun t => [(t.length : ℚ)]), [],
        [["a", "bb", "ccc"]]⟩
    ∧ ((["a", "bb", "ccc"].map fun t => [(t.length : ℚ)]).length
        = (["a", "bb", "ccc"] : List String).length) :=
  C1_amended (fun _ ts => .ok (ts.map fun t => [(t.length : ℚ)]))
    (fun t => [(t.length : ℚ)]) ["a", "bb", "ccc"] rfl

/-- Claim C4: the embedding operations retry only on a rate-limit/quota
signal, with backoff `2 * 2 ^ attempt`, for at most 5 attempts; five straight
rate-limit errors yield the distinct exhausted error (with the full bounded
wait schedule 2, 4, 8, 16, 32); a non-rate-limit error is re-raised at once,
with no further provider call — shown for a first-call error and for an error
following one rate-limited attempt, and for `get_embeddings_batch` as well. -/
theorem C4_retry_policy (provider : Nat → EmbOutcome)
    (providerB : Nat → List String → BatchOutcome) (texts : List String) :
    ((∀ i, i < 5 → ∃ e, provider i = .err e ∧ isRateLimitError e.msg = true) →
      get_embedding provider 5 = ⟨.exhausted, [2, 4, 8, 16, 32], 5⟩)
    ∧ (∀ e, provider 0 = .err e → isRateLimitError e.msg = false →
      get_embedding provider 5 = ⟨.raised e.msg, [], 1⟩)
    ∧ (∀ e0 e1, provider 0 = .err e0 → isRateLimitError e0.msg = true →
      provider 1 = .err e1 → isRateLimitError e1.msg = false →
      get_embedding provider 5 = ⟨.raised e1.msg, [2], 2⟩)
    ∧ ((∀ i, i < 5 → ∃ e, providerB i texts = .err e ∧ isRateLimitError e.msg = true) →
      get_embeddings_batch providerB texts 5 =
        ⟨.exhausted, [2, 4, 8, 16, 32], [texts, texts, texts, texts, texts]⟩)
    ∧ (∀ e, providerB 0 texts = .err e → isRateLimitError e.msg = false →
      get_embeddings_batch providerB texts 5 = ⟨.raised e.msg, [], [texts]⟩) := by
  refine ⟨?_, ?_, ?_, ?_, ?_⟩
  · intro h
    obtain ⟨e0, p0, r0⟩ := h 0 (by omega)
    obtain ⟨e1, p1, r1⟩ := h 1 (by omega)
    obtain ⟨e2, p2, r2⟩ := h 2 (by omega)
    obtain ⟨e3, p3, r3⟩ := h 3 (by omega)
    obtain ⟨e4, p4, r4⟩ := h 4 (by omega)
    simp [get_embedding, getEmbeddingGo, p0, r0, p1, r1, p2, r2, p3, r3, p4, r4]
  · intro e p0 r0
    simp [get_embedding, getEmbeddingGo, p0, r0]
  · intro e0 e1 p0 r0 p1 r1
    simp [get_embedding, getEmbeddingGo, p0, r0, p1, r1]
  · intro h
    obtain ⟨e0, p0, r0⟩ := h 0 (by omega)
    obtain ⟨e1, p1, r1⟩ := h 1 (by omega)
    obtain ⟨e2, p2, r2⟩ := h 2 (by omega)
    obtain ⟨e3, p3, r3⟩ := h 3 (by omega)
    obtain ⟨e4, p4, r4⟩ := h 4 (by omega)
    simp [get_embeddings_batch, getEmbeddingsBatchGo, p0, r0, p1, r1, p2, r2,
      p3, r3, p4, r4]
  · intro e p0 r0
    simp [get_embeddings_batch, getEmbeddingsBatchGo, p0, r0]

/-- Witness for C4_retry_policy at concrete providers. -/
theorem C4_retry_policy_witness :
    get_embedding (fun _ => .err ⟨"429 Too Many Requests"⟩) 5 =
      ⟨.exhausted, [2, 4, 8, 16, 32], 5⟩
    ∧ get_embedding (fun _ => .err ⟨"invalid argument"⟩) 5 =
      ⟨.raised "invalid argument", [], 1⟩
    ∧ get_embeddings_batch (fun _ _ => .err ⟨"Quota exceeded for model"⟩)
        ["a", "b"] 5 =
      ⟨.exhausted, [2, 4, 8, 16, 32],
        [["a", "b"], ["a", "b"], ["a", "b"], ["a", "b"], ["a", "b"]]⟩ := by
  refine ⟨?_, ?_, ?_⟩
  · exact (C4_retry_policy (fun _ => .err ⟨"429 Too Many Requests"⟩)
      (fun _ _ => .err ⟨"x"⟩) []).1
      (fun i _ => ⟨⟨"429 Too Many Requests"⟩, rfl, by decide⟩)
  · exact (C4_retry_policy (fun _ => .err ⟨"invalid argument"⟩)
      (fun _ _ => .err ⟨"x"⟩) []).2.1
      ⟨"invalid argument"⟩ rfl (by decide)
  · exact (C4_retry_policy (fun _ => .err ⟨"y"⟩)
      (fun _ _ => .err ⟨"Quota exceeded for model"⟩) ["a", "b"]).2.2.2.1
      (fun i _ => ⟨⟨"Quota exceeded for model"⟩, rfl, by decide⟩)

/-- Claim C5, evaluation at the failing input: a single valid job whose
chunk's first Firestore commit attempt signals contention and whose second
attempt succeeds. The pipeline reaches its terminal state and persists exactly
one record, but returns TWO `{job_id, embedding_dim}` confirmations for it,
because the source appends confirmations inside the commit-retry loop before
the commit. This contradicts the one-confirmation-per-persisted-record
contract (the UI reports `len(results)` as the number of processed jobs). -/
theorem C5_duplicate_confirmations :
    (ingest_jobs_batch (fun _ => [0, 0, 0])
        (fun _ a => if a = 0 then .contention else .ok)
        [⟨"1", some "desc", none⟩] "S" []).result = .ok [⟨"1", 3⟩, ⟨"1", 3⟩]
    ∧ (ingest_jobs_batch (fun _ => [0, 0, 0])
        (fun _ a => if a = 0 then .contention else .ok)
        [⟨"1", some "desc", none⟩] "S" []).store
          = [⟨"1", "desc", [0, 0, 0], "S"⟩] :=
  ⟨rfl, rfl⟩

/-- Claim C2: the `MatchResult` sequence returned by `get_top_matches` keeps
exactly the `(job_id, distance)` sequence of the documents the vector store
streamed back (attaching the reasoning text reorders nothing), and that
sequence is sorted by ascending distance (nearest first). -/
theorem C2_order_preserved (embedModel : String → List ℚ) (llm : String → String)
    (dist : List ℚ → List ℚ → ℚ) (store : List VacancyRecord)
    (resume_text : String) (session_id : Option String) (top_k : Nat)
    (prompt : Option String) :
    (get_top_matches embedModel llm dist store resume_text session_id top_k
        prompt).result.map (fun m => (m.job_id, m.vector_distance))
      = (find_nearest dist store (scopeOf session_id) (embedModel resume_text)
          top_k).map (fun m => (m.job_id, m.vector_distance))
    ∧ (get_top_matches embedModel llm dist store resume_text session_id top_k
        prompt).result.Pairwise
        (fun a b => a.vector_distance ≤ b.vector_distance) := by
  constructor
  · simp only [get_top_matches, List.map_map]
    rfl
  · simp only [get_top_matches]
    rw [List.pairwise_map]
    have hs : (List.insertionSort distLE ((poolOf store (scopeOf session_id)).map
        (docOf dist (embedModel resume_text)))).Pairwise distLE :=
      List.sorted_insertionSort distLE _
    have ht : ((List.insertionSort distLE ((poolOf store (scopeOf session_id)).map
        (docOf dist (embedModel resume_text)))).take top_k).Pairwise distLE :=
      hs.sublist (List.take_sublist top_k _)
    exact ht.imp fun h => h

/-- Claim C3: after ingesting job set A under session tag A and job set B
under a different tag B (with disjoint job ids), a query scoped to tag A
returns only records carrying `session_id = A`, and never a job inserted only
under tag B. -/
theorem C3_session_scoping (embedder1 embedder2 : String → List ℚ)
    (commitB1 commitB2 : Nat → Nat → CommitOutcome)
    (embedModel : String → List ℚ) (llm : String → String)
    (dist : List ℚ → List ℚ → ℚ) (jobsA jobsB : List Job) (A B : String)
    (resume_text : String) (top_k : Nat) (prompt : Option String)
    (hA : A ≠ "") (hAB : A ≠ B)
    (hdisj : ∀ ja ∈ jobsA, ∀ jb ∈ jobsB, ja.job_id ≠ jb.job_id) :
    ((get_top_matches embedModel llm dist
        (ingest_jobs_batch embedder2 commitB2 jobsB B
          (ingest_jobs_batch embedder1 commitB1 jobsA A []).store).store
        resume_text (some A) top_k prompt).result.all
      (fun m => m.session_id == A
        && jobsB.all fun jb => m.job_id != jb.job_id)) = true := by
  rw [List.all_eq_true]
  intro m hm
  simp only [get_top_matches] at hm
  obtain ⟨j, hj, rfl⟩ := List.mem_map.1 hm
  have hsc : scopeOf (some A) = some A := by
    simp [scopeOf, bne_iff_ne.2 hA]
  rw [hsc] at hj
  unfold find_nearest at hj
  have hj2 := List.take_subset _ _ hj
  rw [List.mem_insertionSort] at hj2
  obtain ⟨r, hr, rfl⟩ := List.mem_map.1 hj2
  simp only [poolOf] at hr
  obtain ⟨hrs2, hsess⟩ := List.mem_filter.1 hr
  simp only [ingest_jobs_batch] at hrs2
  rcases ingestGo_store_sub embedder2 commitB2 B _ 0 _ [] [] r hrs2 with
    hs1 | ⟨c, hc, jb0, hjb0, hreq⟩
  · -- the record came from the store as it was before the B ingestion,
    -- i.e. from the A ingestion over the empty store
    rcases ingestGo_store_sub embedder1 commitB1 A _ 0 [] [] [] r hs1 with
      hnil | ⟨c, hc, ja, hja, hreq⟩
    · exact absurd hnil (List.not_mem_nil r)
    · have hjoin : ja ∈ (chunkList 30 (jobsA.filter validJob)).flatten :=
        List.mem_flatten.2 ⟨c, hc, hja⟩
      rw [chunkList_join 30 (by omega)] at hjoin
      have hjaA : ja ∈ jobsA := (List.mem_filter.1 hjoin).1
      rw [Bool.and_eq_true]
      constructor
      · exact hsess
      · rw [List.all_eq_true]
        intro jb hjb
        have hid : r.job_id = ja.job_id := by rw [hreq]; rfl
        show (r.job_id != jb.job_id) = true
        rw [hid]
        exact bne_iff_ne.2 (hdisj ja hjaA jb hjb)
  · -- impossible: a record written by the B ingestion carries tag B ≠ A
    have hsB : r.session_id = B := by rw [hreq]; rfl
    rw [hsB] at hsess
    exact absurd (beq_iff_eq.1 hsess).symm hAB

/-- Witness for C3_session_scoping: one job under tag A, one under tag B,
all commits succeed, query scoped to A. -/
theorem C3_session_scoping_witness :
    ((get_top_matches (fun _ => [0]) (fun _ => "why") (fun _ _ => 0)
        (ingest_jobs_batch (fun _ => [0]) (fun _ _ => .ok)
          [⟨"b1", some "beta", none⟩] "B"
          (ingest_jobs_batch (fun _ => [0]) (fun _ _ => .ok)
            [⟨"a1", some "alpha", none⟩] "A" []).store).store
        "resume" (some "A") 3 none).result.all
      (fun m => m.session_id == "A"
        && ([⟨"b1", some "beta", none⟩] : List Job).all
          fun jb => m.job_id != jb.job_id)) = true :=
  C3_session_scoping (fun _ => [0]) (fun _ => [0]) (fun _ _ => .ok)
    (fun _ _ => .ok) (fun _ => [0]) (fun _ => "why") (fun _ _ => 0)
    [⟨"a1", some "alpha", none⟩] [⟨"b1", some "beta", none⟩] "A" "B"
    "resume" 3 none (by decide) (by decide) (by decide)

/-- Claim C6: validation drops exactly the records whose description is
missing, empty, or whitespace-only; under successful commits the persisted
records are exactly (one per) the valid records, the confirmations and the
embedded descriptions likewise, and the run succeeds (the dropping never
fails it). -/
theorem C6_validation (embedder : String → List ℚ)
    (commitB : Nat → Nat → CommitOutcome) (jobs_data : List Job) (sid : String)
    (hok : ∀ ci, commitB ci 0 = .ok)
    (hnodup : ((jobs_data.filter validJob).map Job.job_id).Nodup) :
    (ingest_jobs_batch embedder commitB jobs_data sid []).store
        = (jobs_data.filter validJob).map (toRecord embedder sid)
    ∧ (ingest_jobs_batch embedder commitB jobs_data sid []).result
        = .ok ((jobs_data.filter validJob).map (confOf embedder))
    ∧ (ingest_jobs_batch embedder commitB jobs_data sid []).embedCalls.flatten
        = (jobs_data.filter validJob).map descOf
    ∧ jobs_data.filter (fun j => !(validJob j))
        = jobs_data.filter (fun j => (j.description.getD "").data.all isPyWs) := by
  have hrun : ingest_jobs_batch embedder commitB jobs_data sid [] =
      ⟨commitChunk []
        ((chunkList 30 (jobs_data.filter validJob)).flatten.map (toRecord embedder sid)),
       .ok ([] ++ (chunkList 30 (jobs_data.filter validJob)).flatten.map (confOf embedder)),
       [] ++ (chunkList 30 (jobs_data.filter validJob)).map fun c => c.map descOf⟩ := by
    simp only [ingest_jobs_batch]
    exact ingestGo_all_ok embedder commitB sid hok _ 0 [] [] []
  rw [chunkList_join 30 (by omega)] at hrun
  have hfresh : commitChunk []
      ((jobs_data.filter validJob).map (toRecord embedder sid)) =
      [] ++ (jobs_data.filter validJob).map (toRecord embedder sid) := by
    refine commitChunk_of_fresh _ [] (fun r _ x hx => absurd hx (List.not_mem_nil x)) ?_
    rw [List.map_map]
    have : (VacancyRecord.job_id ∘ toRecord embedder sid) = Job.job_id := rfl
    rw [this]
    exact hnodup
  refine ⟨?_, ?_, ?_, ?_⟩
  · rw [hrun]
    simpa using hfresh
  · rw [hrun]
    simp
  · rw [hrun]
    simp only [List.nil_append]
    rw [← List.map_flatten, chunkList_join 30 (by omega)]
  · exact List.filter_congr fun j _ => not_validJob_eq j

/-- Witness for C6_validation: one blank-description record among two valid
ones results in exactly the two valid records being persisted. -/
theorem C6_validation_witness :
    ((ingest_jobs_batch (fun _ => [0, 0, 0]) (fun _ _ => .ok)
        [⟨"1", some "good a", none⟩, ⟨"2", some "", none⟩, ⟨"3", some "good b", none⟩]
        "S" []).store
        = (([⟨"1", some "good a", none⟩, ⟨"2", some "", none⟩,
            ⟨"3", some "good b", none⟩] : List Job).filter validJob).map
            (toRecord (fun _ => [0, 0, 0]) "S")
    ∧ (ingest_jobs_batch (fun _ => [0, 0, 0]) (fun _ _ => .ok)
        [⟨"1", some "good a", none⟩, ⟨"2", some "", none⟩, ⟨"3", some "good b", none⟩]
        "S" []).result
        = .ok ((([⟨"1", some "good a", none⟩, ⟨"2", some "", none⟩,
            ⟨"3", some "good b", none⟩] : List Job).filter validJob).map
            (confOf (fun _ => [0, 0, 0])))
    ∧ (ingest_jobs_batch (fun _ => [0, 0, 0]) (fun _ _ => .ok)
        [⟨"1", some "good a", none⟩, ⟨"2", some "", none⟩, ⟨"3", some "good b", none⟩]
        "S" []).embedCalls.flatten
        = (([⟨"1", some "good a", none⟩, ⟨"2", some "", none⟩,
            ⟨"3", some "good b", none⟩] : List Job).filter validJob).map descOf
    ∧ ([⟨"1", some "good a", none⟩, ⟨"2", some "", none⟩,
        ⟨"3", some "good b", none⟩] : List Job).filter (fun j => !(validJob j))
        = ([⟨"1", some "good a", none⟩, ⟨"2", some "", none⟩,
            ⟨"3", some "good b", none⟩] : List Job).filter
            (fun j => (j.description.getD "").data.all isPyWs))
    ∧ (ingest_jobs_batch (fun _ => [0, 0, 0]) (fun _ _ => .ok)
        [⟨"1", some "good a", none⟩, ⟨"2", some "", none⟩, ⟨"3", some "good b", none⟩]
        "S" []).store.length = 2 :=
  ⟨C6_validation (fun _ => [0, 0, 0]) (fun _ _ => .ok)
    [⟨"1", some "good a", none⟩, ⟨"2", some "", none⟩, ⟨"3", some "good b", none⟩]
    "S" (fun _ => rfl) (by decide), by decide⟩

/-- Claim C7: a query against a store/scope holding zero records returns the
empty result list — no error — and makes no reasoning-provider call. -/
theorem C7_empty_scope (embedModel : String → List ℚ) (llm : String → String)
    (dist : List ℚ → List ℚ → ℚ) (store : List VacancyRecord)
    (resume_text : String) (session_id : Option String) (top_k : Nat)
    (prompt : Option String)
    (h : poolOf store (scopeOf session_id) = []) :
    (get_top_matches embedModel llm dist store resume_text session_id top_k
        prompt).result = []
    ∧ (get_top_matches embedModel llm dist store resume_text session_id top_k
        prompt).reasoningCalls = [] := by
  have hfn : find_nearest dist store (scopeOf session_id)
      (embedModel resume_text) top_k = [] := by
    unfold find_nearest
    rw [h]
    simp
  constructor
  · simp only [get_top_matches]
    rw [hfn]
    rfl
  · simp only [get_top_matches]
    rw [hfn]
    rfl

/-- Witness for C7_empty_scope at the empty store. -/
theorem C7_empty_scope_witness :
    (get_top_matches (fun _ => [1]) (fun _ => "out") (fun _ _ => 0) []
        "resume" none 3 none).result = []
    ∧ (get_top_matches (fun _ => [1]) (fun _ => "out") (fun _ _ => 0) []
        "resume" none 3 none).reasoningCalls = [] :=
  C7_empty_scope (fun _ => [1]) (fun _ => "out") (fun _ _ => 0) [] "resume"
    none 3 none rfl

/-- Claim C8, counterexample. The claim states that `get_top_matches` with an
empty resume text raises before embedding. It does not: with `resume_text = ""`
the empty string is passed to the embedding provider (the embed-call trace is
`[""]`) and the pipeline runs to completion, returning a match from the
1-record store. -/
theorem C8_counterexample :
    (get_top_matches (fun _ => [1]) (fun _ => "out") (fun _ _ => 0)
        [⟨"j1", "jd", [1], "S"⟩] "" none 3 none).embedCalls = [""]
    ∧ (get_top_matches (fun _ => [1]) (fun _ => "out") (fun _ _ => 0)
        [⟨"j1", "jd", [1], "S"⟩] "" none 3 none).result.length = 1 :=
  ⟨rfl, rfl⟩

/-- Claim C8, amended: `get_top_matches` performs no empty-text validation.
For every resume text — the empty string included — it passes exactly the
given text to the embedding provider (one call) and proceeds to the vector
query, returning `min top_k |pool|` results. -/
theorem C8_amended (embedModel : String → List ℚ) (llm : String → String)
    (dist : List ℚ → List ℚ → ℚ) (store : List VacancyRecord)
    (resume_text : String) (session_id : Option String) (top_k : Nat)
    (prompt : Option String) :
    (get_top_matches embedModel llm dist store resume_text session_id top_k
        prompt).embedCalls = [resume_text]
    ∧ (get_top_matches embedModel llm dist store resume_text session_id top_k
        prompt).result.length
      = min top_k (poolOf store (scopeOf session_id)).length := by
  constructor
  · rfl
  · simp only [get_top_matches, List.length_map]
    unfold find_nearest
    rw [List.length_take, (List.perm_insertionSort distLE _).length_eq,
      List.length_map]

/-- Claim C9, counterexample. The claim states that the scoped delete returns
the count of deleted records. It does not: at a store holding two records
under session "S", the call deletes both (two deletes, one commit of size 2)
but returns `None`, not the count 2. -/
theorem C9_counterexample :
    (delete_session_vacancies [⟨"1", "d", [1], "S"⟩, ⟨"2", "e", [1], "S"⟩]
        (some "S")).store = []
    ∧ (delete_session_vacancies [⟨"1", "d", [1], "S"⟩, ⟨"2", "e", [1], "S"⟩]
        (some "S")).commitSizes = [2]
    ∧ (delete_session_vacancies [⟨"1", "d", [1], "S"⟩, ⟨"2", "e", [1], "S"⟩]
        (some "S")).ret = none
    ∧ (delete_session_vacancies [⟨"1", "d", [1], "S"⟩, ⟨"2", "e", [1], "S"⟩]
        (some "S")).ret ≠ some 2 := by
  refine ⟨rfl, rfl, rfl, ?_⟩
  decide

/-- Claim C9, amended: for a truthy session tag, `delete_session_vacancies`
deletes exactly the records matching the tag, commits in batches that are all
non-empty and of size at most 500 whose sizes sum to the number of matching
records (so zero matches means zero commits — a no-op), queries the store,
and returns no count (`None`). -/
theorem C9_amended (store : List VacancyRecord) (s : String) (hs : s ≠ "") :
    (delete_session_vacancies store (some s)).store
        = store.filter (fun r => !(r.session_id == s))
    ∧ ((delete_session_vacancies store (some s)).commitSizes.all
        fun c => decide (0 < c) && decide (c ≤ 500)) = true
    ∧ (delete_session_vacancies store (some s)).commitSizes.sum
        = (store.filter (fun r => r.session_id == s)).length
    ∧ (delete_session_vacancies store (some s)).queried = true
    ∧ (delete_session_vacancies store (some s)).ret = none := by
  have hs2 : (s == "") = false := by
    rw [beq_eq_false_iff_ne]
    exact hs
  have hrun : delete_session_vacancies store (some s) =
      ⟨store.filter (fun r => !(r.session_id == s)),
        deleteLoop (store.filter (fun r => r.session_id == s)) 0 [], true, none⟩ := by
    simp [delete_session_vacancies, hs2]
  rw [hrun]
  refine ⟨rfl, ?_, ?_, rfl, rfl⟩
  · rw [List.all_eq_true]
    intro c hc
    have hb := deleteLoop_bound (store.filter (fun r => r.session_id == s)) 0 []
      (by omega) (by intro c2 hc2; exact absurd hc2 (List.not_mem_nil c2)) c hc
    simp [hb.1, hb.2]
  · rw [deleteLoop_sum]
    simp

/-- Witness for C9_amended at a two-record store with one matching record. -/
theorem C9_amended_witness :
    (delete_session_vacancies [⟨"1", "d", [1], "S"⟩, ⟨"2", "e", [1], "T"⟩]
        (some "S")).store
        = ([⟨"1", "d", [1], "S"⟩, ⟨"2", "e", [1], "T"⟩] : List VacancyRecord).filter
            (fun r => !(r.session_id == "S"))
    ∧ ((delete_session_vacancies [⟨"1", "d", [1], "S"⟩, ⟨"2", "e", [1], "T"⟩]
        (some "S")).commitSizes.all
        fun c => decide (0 < c) && decide (c ≤ 500)) = true
    ∧ (delete_session_vacancies [⟨"1", "d", [1], "S"⟩, ⟨"2", "e", [1], "T"⟩]
        (some "S")).commitSizes.sum
        = (([⟨"1", "d", [1], "S"⟩, ⟨"2", "e", [1], "T"⟩] : List VacancyRecord).filter
            (fun r => r.session_id == "S")).length
    ∧ (delete_session_vacancies [⟨"1", "d", [1], "S"⟩, ⟨"2", "e", [1], "T"⟩]
        (some "S")).queried = true
    ∧ (delete_session_vacancies [⟨"1", "d", [1], "S"⟩, ⟨"2", "e", [1], "T"⟩]
        (some "S")).ret = none :=
  C9_amended [⟨"1", "d", [1], "S"⟩, ⟨"2", "e", [1], "T"⟩] "S" (by decide)

/-- Claim C10: for a falsy session identifier (`None` or the empty string)
`delete_session_vacancies` returns immediately — the store is not queried, no
commit is issued, every stored record is left unchanged, and nothing is
returned. -/
theorem C10_falsy_noop (store : List VacancyRecord) (session_id : Option String)
    (h : session_id = none ∨ session_id = some "") :
    delete_session_vacancies store session_id = ⟨store, [], false, none⟩ := by
  rcases h with h | h
  · subst h
    rfl
  · subst h
    rfl

/-- Witness for C10_falsy_noop at both falsy session identifiers. -/
theorem C10_falsy_noop_witness :
    delete_session_vacancies [⟨"1", "d", [1], "S"⟩] none
        = ⟨[⟨"1", "d", [1], "S"⟩], [], false, none⟩
    ∧ delete_session_vacancies [⟨"1", "d", [1], "S"⟩] (some "")
        = ⟨[⟨"1", "d", [1], "S"⟩], [], false, none⟩ :=
  ⟨C10_falsy_noop [⟨"1", "d", [1], "S"⟩] none (Or.inl rfl),
    C10_falsy_noop [⟨"1", "d", [1], "S"⟩] (some "") (Or.inr rfl)⟩

end JobRAG
